import Mathlib

/-!
A shallow embedding of tools/stats/upload_test_stats.py.

Modelling conventions:
* Python dicts with string keys are association lists in insertion order;
  assignment d[k] = v is updateK, lookup is lookupK.
* Python int(s) and float(s) on strings are pyInt? and pyFloat?.  They
  cover the decimal forms: optional ASCII whitespace, optional sign,
  digits, fraction, exponent, and the inf, infinity, nan spellings of
  float.  Underscore digit separators and non-ASCII digits or whitespace
  are not modelled.  Parsed floating values are kept as exact rationals;
  IEEE rounding is not modelled, and no claim here depends on it.
* A raised Python exception is modelled as Option.none or Except.error.
* An xml.etree.ElementTree.Element is the inductive Element below: a
  tag, the attribute dict, the optional text and tail strings, and the
  list of child elements.
* Network and filesystem effects are modelled by the value that drives
  them: download_and_extract_s3_reports is a function of the list of
  object keys the prefix listing returns, and download_and_extract_artifact
  is a function of the artifact name, returning which actions happened.
-/

/-- ASCII whitespace as stripped by Python str.strip, int and float. -/
def isPySpace (c : Char) : Bool :=
  c == ' ' || c == '\t' || c == '\n' || c == '\r' || c == '\x0b' || c == '\x0c'

/-- Strip leading and trailing whitespace from a character list. -/
def stripWS (l : List Char) : List Char :=
  ((l.dropWhile isPySpace).reverse.dropWhile isPySpace).reverse

/-- Consume one optional leading sign; true means negative. -/
def readSign : List Char → Bool × List Char
  | '-' :: rest => (true, rest)
  | '+' :: rest => (false, rest)
  | l => (false, l)

/-- The natural number denoted by a list of decimal digits. -/
def natOfDigits (l : List Char) : Nat :=
  l.foldl (fun a c => 10 * a + (c.toNat - 48)) 0

/-- The digit body accepted by Python int after sign removal. -/
def pyIntBody? (body : List Char) : Option Nat :=
  if body ≠ [] ∧ body.all Char.isDigit then some (natOfDigits body) else none

/-- Python int(s) on a string: optional surrounding whitespace, optional
sign, then decimal digits; none models the ValueError raise. -/
def pyInt? (s : String) : Option Int :=
  let p := readSign (stripWS s.data)
  (pyIntBody? p.2).map (fun m => if p.1 then -(m : Int) else (m : Int))

/-- The value of a Python float: a finite rational, a signed infinity,
or nan. -/
inductive PyFloat where
  | finite (q : ℚ)
  | inf (neg : Bool)
  | nan
deriving DecidableEq

/-- Exponent part of a float literal after the e: optional sign then
digits. -/
def parseExpAfterE? (m : ℚ) (l : List Char) : Option ℚ :=
  let p := readSign l
  if p.2 ≠ [] ∧ p.2.all Char.isDigit then
    some (if p.1 then m / (10 : ℚ) ^ natOfDigits p.2 else m * (10 : ℚ) ^ natOfDigits p.2)
  else none

/-- Optional exponent part of a float literal. -/
def parseExp? (m : ℚ) : List Char → Option ℚ
  | [] => some m
  | 'e' :: t => parseExpAfterE? m t
  | 'E' :: t => parseExpAfterE? m t
  | _ => none

/-- The numeric body of a Python float literal after sign removal:
digits, optional fraction, optional exponent. -/
def pyFloatBody? (l : List Char) : Option ℚ :=
  let ip := l.takeWhile Char.isDigit
  match l.dropWhile Char.isDigit with
  | '.' :: t =>
    let fp := t.takeWhile Char.isDigit
    if ip = [] ∧ fp = [] then none
    else parseExp? ((natOfDigits (ip ++ fp) : ℚ) / (10 : ℚ) ^ fp.length) (t.dropWhile Char.isDigit)
  | rest => if ip = [] then none else parseExp? ((natOfDigits ip : ℚ)) rest

/-- Python float(s) on a string; none models the ValueError raise. -/
def pyFloat? (s : String) : Option PyFloat :=
  let p := readSign (stripWS s.data)
  let lower := p.2.map Char.toLower
  if lower = ['i', 'n', 'f'] ∨ lower = ['i', 'n', 'f', 'i', 'n', 'i', 't', 'y'] then
    some (.inf p.1)
  else if lower = ['n', 'a', 'n'] then some .nan
  else (pyFloatBody? p.2).map (fun q => .finite (if p.1 then -q else q))

/-- A JSON-serializable value as the script produces them: Python int,
float, str, or a nested dict. -/
inductive Value where
  | intV (n : Int)
  | floatV (f : PyFloat)
  | strV (s : String)
  | dictV (fields : List (String × Value))

/-- A Python dict with string keys, in insertion order. -/
abbrev Dict := List (String × Value)

/-- Python dict assignment d[k] = v: replace the value in place when the
key is present, append the pair otherwise. -/
def updateK {α : Type} (d : List (String × α)) (k : String) (v : α) : List (String × α) :=
  if d.any (fun p => p.1 == k) then d.map (fun p => if p.1 == k then (k, v) else p)
  else d ++ [(k, v)]

/-- Python dict lookup d.get(k). -/
def lookupK {α : Type} : List (String × α) → String → Option α
  | [], _ => none
  | p :: d, k => if p.1 == k then some p.2 else lookupK d k

/-- The keys of a dict, in order. -/
def keysK {α : Type} (d : List (String × α)) : List String :=
  d.map Prod.fst

/-- An ElementTree element: tag, attribute dict, text, tail, children. -/
inductive Element where
  | mk (tag : String) (attrib : List (String × String)) (text : Option String)
       (tail : Option String) (children : List Element)

def Element.tag : Element → String
  | .mk t _ _ _ _ => t

def Element.attrib : Element → List (String × String)
  | .mk _ a _ _ _ => a

def Element.text : Element → Option String
  | .mk _ _ tx _ _ => tx

def Element.tail : Element → Option String
  | .mk _ _ _ tl _ => tl

def Element.children : Element → List Element
  | .mk _ _ _ _ cs => cs

/-- Models ret.update(element.attrib) starting from the empty dict. -/
def attribDict (attrib : List (String × String)) : List (String × String) :=
  attrib.foldl (fun d p => updateK d p.1 p.2) []

/-- The coercion the loop applies to one attribute value: int(v) is
tried first, then float(v), both on the original string v, so a
successful float parse overwrites the int result. -/
def coerce (v : String) : Value :=
  let afterInt := match pyInt? v with
    | some n => Value.intV n
    | none => Value.strV v
  match pyFloat? v with
  | some f => Value.floatV f
  | none => afterInt

/-- The record after the attribute copy and the coercion loop. -/
def attribRecord (attrib : List (String × String)) : Dict :=
  (attribDict attrib).map (fun p => (p.1, coerce p.2))

/-- Models: if element.text and element.text.strip() then ret stores the
original text under key text. -/
def addText (text : Option String) (d : Dict) : Dict :=
  match text with
  | none => d
  | some t => if t.data.all isPySpace then d else updateK d "text" (Value.strV t)

/-- Models the same check and store for the tail string. -/
def addTail (tail : Option String) (d : Dict) : Dict :=
  match tail with
  | none => d
  | some t => if t.data.all isPySpace then d else updateK d "tail" (Value.strV t)

/-- True when the Python condition "s and s.strip()" is falsy: the
string is absent, empty, or whitespace only. -/
def isBlankO (s : Option String) : Bool :=
  match s with
  | none => true
  | some t => t.data.all isPySpace

mutual
/-- process_xml_element from the source: copy and coerce the attributes,
then add text and tail, then store each recursively processed child
under its tag. -/
def process_xml_element : Element → Dict
  | .mk _ attrib text tail children =>
    addChildren children (addTail tail (addText text (attribRecord attrib)))

/-- Models the loop: for child in element: ret stores the processed
child under key child.tag. -/
def addChildren : List Element → Dict → Dict
  | [], d => d
  | c :: cs, d => addChildren cs (updateK d c.tag (Value.dictV (process_xml_element c)))
end

mutual
/-- Models ElementTree iter(tag): all elements with the given tag in
document order, the element itself included. -/
def iterTag (tag0 : String) : Element → List Element
  | e@(.mk t _ _ _ children) =>
    (if t == tag0 then [e] else []) ++ iterTagList tag0 children

def iterTagList (tag0 : String) : List Element → List Element
  | [] => []
  | c :: cs => iterTag tag0 c ++ iterTagList tag0 cs
end

/-- Python rpartition on an underscore, keeping the suffix: the text
after the last underscore, or the whole string when there is none. -/
def rpartitionSuffix (s : String) : String :=
  String.mk ((s.data.reverse.takeWhile (fun c => c != '_')).reverse)

/-- A test report: the path, as Path.parts, and the parsed XML root. -/
structure XmlReport where
  parts : List String
  root : Element

/-- parse_xml_report from the source: extract the job id from the first
path segment, then build one record per element with the given tag,
injecting workflow_id, workflow_run_attempt and job_id; none models the
uncaught ValueError from int. -/
def parse_xml_report (tag0 : String) (report : XmlReport)
    (workflow_id workflow_run_attempt : Int) : Option (List Dict) :=
  match pyInt? (rpartitionSuffix (report.parts.headD "")) with
  | none => none
  | some job_id =>
    some ((iterTag tag0 report.root).map (fun tc =>
      updateK (updateK (updateK (process_xml_element tc)
        "workflow_id" (Value.intV workflow_id))
        "workflow_run_attempt" (Value.intV workflow_run_attempt))
        "job_id" (Value.intV job_id)))

/-- What download_and_extract_artifact did: which mismatched run
attempts were logged, and whether the download and extraction ran. -/
structure ArtifactAction where
  warnings : List Int
  downloaded : Bool
  extracted : Bool
deriving DecidableEq

/-- Python str.split with an explicit one-character separator: the
accumulator collects the current atom in reverse. -/
def pySplitAux (sep : Char) : List Char → List Char → List String
  | [], acc => [String.mk acc.reverse]
  | c :: rest, acc =>
    if c = sep then String.mk acc.reverse :: pySplitAux sep rest []
    else pySplitAux sep rest (c :: acc)

/-- Python s.split(sep) for a one-character separator; the empty string
splits to one empty atom, as in Python. -/
def pySplit (sep : Char) (s : String) : List String :=
  pySplitAux sep s.data []

/-- Python s.startswith(pre). -/
def pyStartsWith (s pre : String) : Bool :=
  decide (s.data.take pre.data.length = pre.data)

/-- Python s[n:]. -/
def pyDrop (s : String) (n : Nat) : String :=
  String.mk (s.data.drop n)

/-- The run-attempt scan over the hyphen-separated atoms of the
artifact name: a mismatch is only logged, collected in the result; an
atom starting with runattempt whose suffix is not an int raises. -/
def checkAtoms : List String → Int → Except String (List Int)
  | [], _ => .ok []
  | atom :: rest, att =>
    if pyStartsWith atom "runattempt" then
      match pyInt? (pyDrop atom 10) with
      | none => .error "ValueError"
      | some found =>
        match checkAtoms rest att with
        | .error e => .error e
        | .ok ws => .ok (if att ≠ found then found :: ws else ws)
    else checkAtoms rest att

/-- download_and_extract_artifact from the source: scan the atoms, then
unconditionally download and extract. -/
def download_and_extract_artifact (artifact_name : String)
    (workflow_run_attempt : Int) : Except String ArtifactAction :=
  match checkAtoms (pySplit '-' artifact_name) workflow_run_attempt with
  | .error e => .error e
  | .ok ws => .ok ⟨ws, true, true⟩

/-- download_and_extract_s3_reports from the source, as a function of
the object keys the prefix listing returns: every listed object is
downloaded and extracted, and a RuntimeError is raised when the listing
was empty. -/
def download_and_extract_s3_reports (objs : List String) : Except String (List String) :=
  let result := objs.foldl (fun acc obj => (true, acc.2 ++ [obj])) ((false, []) : Bool × List String)
  if result.1 then .ok result.2
  else .error "RuntimeError: no test reports found in s3"

/-- The last child with a given tag, the one whose record survives. -/
def lastWithTag (tag0 : String) : List Element → Option Element
  | [] => none
  | c :: cs =>
    match lastWithTag tag0 cs with
    | some r => some r
    | none => if c.tag == tag0 then some c else none

/-! Dictionary lemmas: Python dict assignment and lookup. -/

theorem lookupK_cons {α : Type} (p : String × α) (d : List (String × α)) (k : String) :
    lookupK (p :: d) k = if p.1 == k then some p.2 else lookupK d k := rfl

theorem lookupK_append_some {α : Type} {d : List (String × α)} {k : String} {v : α}
    (e : List (String × α)) (h : lookupK d k = some v) : lookupK (d ++ e) k = some v := by
  induction d with
  | nil => simp [lookupK] at h
  | cons p d ih =>
    rw [lookupK_cons] at h
    rw [List.cons_append, lookupK_cons]
    cases hp : p.1 == k
    · rw [hp] at h
      simp only [Bool.false_eq_true, if_false] at h ⊢
      exact ih h
    · rw [hp] at h
      simpa using h

theorem lookupK_append_none {α : Type} {d : List (String × α)} {k : String}
    (e : List (String × α)) (h : lookupK d k = none) : lookupK (d ++ e) k = lookupK e k := by
  induction d with
  | nil => rfl
  | cons p d ih =>
    rw [lookupK_cons] at h
    rw [List.cons_append, lookupK_cons]
    cases hp : p.1 == k
    · rw [hp] at h
      simp only [Bool.false_eq_true, if_false] at h ⊢
      exact ih h
    · rw [hp] at h
      simp at h

theorem lookupK_map_update {α : Type} (d : List (String × α)) (k : String) (v : α) :
    lookupK (d.map (fun p => if p.1 == k then (k, v) else p)) k =
      if d.any (fun p => p.1 == k) then some v else none := by
  induction d with
  | nil => rfl
  | cons p d ih =>
    simp only [List.map_cons, List.any_cons]
    by_cases hp : p.1 = k
    · have hb : (p.1 == k) = true := beq_iff_eq.2 hp
      simp [hb, lookupK_cons]
    · have hb : (p.1 == k) = false := beq_eq_false_iff_ne.2 hp
      rw [lookupK_cons]
      simp only [hb, Bool.false_eq_true, if_false, Bool.false_or]
      exact ih

theorem lookupK_eq_none_of_any_false {α : Type} (d : List (String × α)) (k : String)
    (h : d.any (fun p => p.1 == k) = false) : lookupK d k = none := by
  induction d with
  | nil => rfl
  | cons p d ih =>
    simp only [List.any_cons, Bool.or_eq_false_iff] at h
    simp [lookupK_cons, h.1, ih h.2]

theorem lookupK_updateK_self {α : Type} (d : List (String × α)) (k : String) (v : α) :
    lookupK (updateK d k v) k = some v := by
  rw [updateK]
  cases hA : d.any (fun p => p.1 == k)
  · rw [if_neg (by simp [hA])]
    rw [lookupK_append_none _ (lookupK_eq_none_of_any_false d k hA)]
    simp [lookupK_cons]
  · rw [if_pos rfl, lookupK_map_update, if_pos hA]

theorem lookupK_map_update_ne {α : Type} (d : List (String × α)) (k q : String) (v : α)
    (h : q ≠ k) :
    lookupK (d.map (fun p => if p.1 == k then (k, v) else p)) q = lookupK d q := by
  induction d with
  | nil => rfl
  | cons p d ih =>
    simp only [List.map_cons, lookupK_cons]
    cases hp : p.1 == k
    · simp only [hp, Bool.false_eq_true, if_false, lookupK_cons, ih]
    · have hpk : p.1 = k := by simpa using hp
      have hkq : (k == q) = false := beq_eq_false_iff_ne.2 (fun e => h e.symm)
      simp only [hp, if_true, lookupK_cons, hkq, hpk, Bool.false_eq_true, if_false, ih]

theorem lookupK_updateK_ne {α : Type} (d : List (String × α)) (k q : String) (v : α)
    (h : q ≠ k) : lookupK (updateK d k v) q = lookupK d q := by
  rw [updateK]
  cases hA : d.any (fun p => p.1 == k)
  · rw [if_neg (by simp [hA])]
    cases hq : lookupK d q
    · rw [lookupK_append_none _ hq, lookupK_cons]
      have hkq : (k == q) = false := beq_eq_false_iff_ne.2 (fun e => h e.symm)
      simp [hkq, lookupK]
    · rw [lookupK_append_some _ hq]
  · rw [if_pos rfl, lookupK_map_update_ne d k q v h]

theorem keysK_map_update {α : Type} (d : List (String × α)) (k : String) (v : α) :
    keysK (d.map (fun p => if p.1 == k then (k, v) else p)) = keysK d := by
  simp only [keysK, List.map_map]
  refine List.map_congr_left ?_
  intro p _
  simp only [Function.comp_apply]
  split
  · next hq => exact (beq_iff_eq.mp hq).symm
  · rfl

theorem keysK_append_single {α : Type} (d : List (String × α)) (k : String) (v : α) :
    keysK (d ++ [(k, v)]) = keysK d ++ [k] := by
  simp [keysK]

theorem not_mem_keysK {α : Type} (d : List (String × α)) (k : String)
    (h : d.any (fun p => p.1 == k) = false) : k ∉ keysK d := by
  intro hk
  simp only [keysK, List.mem_map] at hk
  obtain ⟨p, hp, hpe⟩ := hk
  rw [List.any_eq_false] at h
  exact (by simpa [hpe] using h p hp)

theorem nodup_keysK_updateK {α : Type} (d : List (String × α)) (k : String) (v : α)
    (h : (keysK d).Nodup) : (keysK (updateK d k v)).Nodup := by
  rw [updateK]
  cases hA : d.any (fun p => p.1 == k)
  · rw [if_neg (by simp [hA]), keysK_append_single]
    refine List.nodup_append.2 ⟨h, List.nodup_singleton _, ?_⟩
    rw [List.disjoint_singleton]
    exact not_mem_keysK d k hA
  · rw [if_pos rfl, keysK_map_update]
    exact h

theorem lookupK_map_val {α β : Type} (f : α → β) (l : List (String × α)) (k : String) :
    lookupK (l.map (fun p => (p.1, f p.2))) k = (lookupK l k).map f := by
  induction l with
  | nil => rfl
  | cons p l ih =>
    simp only [List.map_cons, lookupK_cons]
    cases hp : p.1 == k
    · simp [hp, ih]
    · simp [hp]

theorem keysK_map_val {α β : Type} (f : α → β) (l : List (String × α)) :
    keysK (l.map (fun p => (p.1, f p.2))) = keysK l := by
  simp [keysK, List.map_map, Function.comp]

/-! Lemmas about the record-building steps of process_xml_element. -/

theorem nodup_keysK_foldl_update (a : List (String × String)) :
    ∀ d : List (String × String), (keysK d).Nodup →
      (keysK (a.foldl (fun d p => updateK d p.1 p.2) d)).Nodup := by
  induction a with
  | nil => intro d h; simpa using h
  | cons p a ih =>
    intro d h
    rw [List.foldl_cons]
    exact ih _ (nodup_keysK_updateK d p.1 p.2 h)

theorem nodup_keysK_attribDict (attrib : List (String × String)) :
    (keysK (attribDict attrib)).Nodup :=
  nodup_keysK_foldl_update attrib [] (by simp [keysK])

theorem lookupK_foldl_update_ne (a : List (String × String)) (q : String)
    (hq : ∀ p ∈ a, p.1 ≠ q) :
    ∀ d : List (String × String),
      lookupK (a.foldl (fun d p => updateK d p.1 p.2) d) q = lookupK d q := by
  induction a with
  | nil => intro d; rfl
  | cons p a ih =>
    intro d
    rw [List.foldl_cons, ih (fun x hx => hq x (List.mem_cons_of_mem _ hx)),
      lookupK_updateK_ne _ _ _ _ (fun e => hq p (List.mem_cons_self _ _) e.symm)]

theorem lookupK_attribDict_none (attrib : List (String × String)) (q : String)
    (h : ∀ p ∈ attrib, p.1 ≠ q) : lookupK (attribDict attrib) q = none := by
  rw [attribDict, lookupK_foldl_update_ne attrib q h []]
  rfl

theorem lookupK_attribRecord (attrib : List (String × String)) (k : String) :
    lookupK (attribRecord attrib) k = (lookupK (attribDict attrib) k).map coerce := by
  rw [attribRecord, lookupK_map_val]

theorem keysK_attribRecord (attrib : List (String × String)) :
    keysK (attribRecord attrib) = keysK (attribDict attrib) := by
  rw [attribRecord, keysK_map_val]

theorem addText_none (d : Dict) : addText none d = d := rfl

theorem addTail_none (d : Dict) : addTail none d = d := rfl

theorem addText_blank (t : String) (d : Dict) (h : t.data.all isPySpace = true) :
    addText (some t) d = d := by
  rw [addText, if_pos h]

theorem addTail_blank (t : String) (d : Dict) (h : t.data.all isPySpace = true) :
    addTail (some t) d = d := by
  rw [addTail, if_pos h]

theorem addText_nonblank (t : String) (d : Dict) (h : t.data.all isPySpace = false) :
    addText (some t) d = updateK d "text" (Value.strV t) := by
  rw [addText, if_neg (by simp [h])]

theorem addTail_nonblank (t : String) (d : Dict) (h : t.data.all isPySpace = false) :
    addTail (some t) d = updateK d "tail" (Value.strV t) := by
  rw [addTail, if_neg (by simp [h])]

theorem lookupK_addText_ne (tx : Option String) (d : Dict) (q : String) (h : q ≠ "text") :
    lookupK (addText tx d) q = lookupK d q := by
  match tx with
  | none => rfl
  | some t =>
    cases hb : t.data.all isPySpace
    · rw [addText_nonblank t d hb, lookupK_updateK_ne _ _ _ _ h]
    · rw [addText_blank t d hb]

theorem lookupK_addTail_ne (tl : Option String) (d : Dict) (q : String) (h : q ≠ "tail") :
    lookupK (addTail tl d) q = lookupK d q := by
  match tl with
  | none => rfl
  | some t =>
    cases hb : t.data.all isPySpace
    · rw [addTail_nonblank t d hb, lookupK_updateK_ne _ _ _ _ h]
    · rw [addTail_blank t d hb]

theorem nodup_keysK_addText (tx : Option String) (d : Dict) (h : (keysK d).Nodup) :
    (keysK (addText tx d)).Nodup := by
  match tx with
  | none => exact h
  | some t =>
    cases hb : t.data.all isPySpace
    · rw [addText_nonblank t d hb]; exact nodup_keysK_updateK _ _ _ h
    · rw [addText_blank t d hb]; exact h

theorem nodup_keysK_addTail (tl : Option String) (d : Dict) (h : (keysK d).Nodup) :
    (keysK (addTail tl d)).Nodup := by
  match tl with
  | none => exact h
  | some t =>
    cases hb : t.data.all isPySpace
    · rw [addTail_nonblank t d hb]; exact nodup_keysK_updateK _ _ _ h
    · rw [addTail_blank t d hb]; exact h

theorem lastWithTag_eq_none (t : String) (cs : List Element)
    (h : ∀ c ∈ cs, c.tag ≠ t) : lastWithTag t cs = none := by
  induction cs with
  | nil => rfl
  | cons c cs ih =>
    rw [lastWithTag, ih (fun x hx => h x (List.mem_cons_of_mem _ hx))]
    have hb : (c.tag == t) = false :=
      beq_eq_false_iff_ne.2 (h c (List.mem_cons_self _ _))
    simp [hb]

theorem lookupK_addChildren (cs : List Element) (t : String) :
    ∀ d : Dict, lookupK (addChildren cs d) t =
      match lastWithTag t cs with
      | some c => some (Value.dictV (process_xml_element c))
      | none => lookupK d t := by
  induction cs with
  | nil => intro d; rfl
  | cons c cs ih =>
    intro d
    rw [addChildren, ih]
    cases hl : lastWithTag t cs
    · rw [lastWithTag, hl]
      cases hc : c.tag == t
      · have hne : t ≠ c.tag := fun e => by simp [e] at hc
        simp only [hc, Bool.false_eq_true, if_false]
        exact lookupK_updateK_ne _ _ _ _ hne
      · have he : c.tag = t := beq_iff_eq.mp hc
        simp only [hc, if_true]
        rw [he, lookupK_updateK_self]
    · rw [lastWithTag, hl]

theorem nodup_keysK_addChildren (cs : List Element) :
    ∀ d : Dict, (keysK d).Nodup → (keysK (addChildren cs d)).Nodup := by
  induction cs with
  | nil => intro d h; exact h
  | cons c cs ih =>
    intro d h
    rw [addChildren]
    exact ih _ (nodup_keysK_updateK _ _ _ h)

theorem process_xml_element_def (tg : String) (attrib : List (String × String))
    (tx tl : Option String) (cs : List Element) :
    process_xml_element (.mk tg attrib tx tl cs) =
      addChildren cs (addTail tl (addText tx (attribRecord attrib))) := by
  rw [process_xml_element]

theorem nodup_keysK_process (e : Element) :
    (keysK (process_xml_element e)).Nodup := by
  match e with
  | .mk tg attrib tx tl cs =>
    rw [process_xml_element_def]
    refine nodup_keysK_addChildren cs _ (nodup_keysK_addTail tl _ (nodup_keysK_addText tx _ ?_))
    rw [keysK_attribRecord]
    exact nodup_keysK_attribDict attrib

/-! Parser lemmas: every string Python int accepts, Python float
accepts as well, with the same numeric value. -/

theorem toLower_of_isDigit {c : Char} (h : c.isDigit = true) : c.toLower = c := by
  simp only [Char.isDigit, Bool.and_eq_true, decide_eq_true_eq] at h
  have h57 : c.val.toNat ≤ 57 := UInt32.toNat_le_of_le (by decide) h.2
  simp only [Char.toLower]
  rw [if_neg]
  intro hc
  have h65 : 65 ≤ c.toNat := hc.1
  rw [Char.toNat] at h65
  omega

theorem map_toLower_digits (l : List Char) (h : l.all Char.isDigit = true) :
    l.map Char.toLower = l := by
  induction l with
  | nil => rfl
  | cons c l ih =>
    simp only [List.all_cons, Bool.and_eq_true] at h
    rw [List.map_cons, toLower_of_isDigit h.1, ih h.2]

theorem pyFloatBody?_digits (l : List Char) (hne : l ≠ []) (h : l.all Char.isDigit = true) :
    pyFloatBody? l = some ((natOfDigits l : ℚ)) := by
  have hx : ∀ x ∈ l, Char.isDigit x = true := List.all_eq_true.mp h
  have ht : l.takeWhile Char.isDigit = l := List.takeWhile_eq_self_iff.2 hx
  have hd : l.dropWhile Char.isDigit = [] := List.dropWhile_eq_nil_iff.2 hx
  simp only [pyFloatBody?, ht, hd]
  rw [if_neg hne]
  rfl

theorem pyFloat?_of_pyInt? (s : String) (n : Int) (h : pyInt? s = some n) :
    pyFloat? s = some (.finite (n : ℚ)) := by
  simp only [pyInt?] at h
  rcases hb : pyIntBody? (readSign (stripWS s.data)).2 with _ | m
  · simp [hb] at h
  · simp [hb] at h
    rw [pyIntBody?] at hb
    by_cases hc : (readSign (stripWS s.data)).2 ≠ [] ∧
        (readSign (stripWS s.data)).2.all Char.isDigit
    · rw [if_pos hc] at hb
      obtain ⟨hne, hall⟩ := hc
      have hm : m = natOfDigits (readSign (stripWS s.data)).2 :=
        (Option.some.inj hb).symm
      have hinf : ¬((readSign (stripWS s.data)).2.map Char.toLower = ['i', 'n', 'f'] ∨
          (readSign (stripWS s.data)).2.map Char.toLower =
            ['i', 'n', 'f', 'i', 'n', 'i', 't', 'y']) := by
        rw [map_toLower_digits _ hall]
        rintro (he | he) <;> rw [he] at hall <;> simp at hall
      have hnan : ¬(readSign (stripWS s.data)).2.map Char.toLower = ['n', 'a', 'n'] := by
        rw [map_toLower_digits _ hall]
        intro he
        rw [he] at hall
        simp at hall
      simp only [pyFloat?]
      rw [if_neg hinf, if_neg hnan, pyFloatBody?_digits _ hne hall]
      rw [Option.map_some']
      rw [← h, hm]
      cases hneg : (readSign (stripWS s.data)).1 <;> simp
    · rw [if_neg hc] at hb
      exact absurd hb (by simp)

theorem coerce_of_pyFloat? (v : String) (f : PyFloat) (h : pyFloat? v = some f) :
    coerce v = Value.floatV f := by
  simp only [coerce, h]

theorem coerce_of_pyInt? (v : String) (n : Int) (h : pyInt? v = some n) :
    coerce v = Value.floatV (.finite (n : ℚ)) :=
  coerce_of_pyFloat? v _ (pyFloat?_of_pyInt? v n h)

theorem coerce_of_none (v : String) (hf : pyFloat? v = none) :
    pyInt? v = none ∧ coerce v = Value.strV v := by
  have hi : pyInt? v = none := by
    cases hi : pyInt? v with
    | none => rfl
    | some n =>
      rw [pyFloat?_of_pyInt? v n hi] at hf
      cases hf
  refine ⟨hi, ?_⟩
  simp only [coerce, hf, hi]

/-! Loop lemmas for the two download functions. -/

theorem s3_foldl (objs : List String) :
    ∀ (b : Bool) (l : List String),
      objs.foldl (fun acc obj => (true, acc.2 ++ [obj])) (b, l) =
        (b || !objs.isEmpty, l ++ objs) := by
  induction objs with
  | nil => intro b l; simp
  | cons o objs ih =>
    intro b l
    rw [List.foldl_cons, ih]
    simp

theorem checkAtoms_ok (att : Int) (atoms : List String)
    (h : ∀ atom ∈ atoms, pyStartsWith atom "runattempt" = true →
      (pyInt? (pyDrop atom 10)).isSome = true) :
    ∃ ws : List Int, checkAtoms atoms att = .ok ws ∧
      ∀ atom ∈ atoms, ∀ n : Int, pyStartsWith atom "runattempt" = true →
        pyInt? (pyDrop atom 10) = some n → n ≠ att → n ∈ ws := by
  induction atoms with
  | nil => exact ⟨[], rfl, by simp⟩
  | cons atom rest ih =>
    obtain ⟨ws, hws, hmem⟩ := ih (fun a ha hs => h a (List.mem_cons_of_mem _ ha) hs)
    cases hs : pyStartsWith atom "runattempt"
    · refine ⟨ws, ?_, ?_⟩
      · rw [checkAtoms]
        simp only [hs, Bool.false_eq_true, if_false]
        exact hws
      · intro a ha n hsa hp hne
        rcases List.mem_cons.mp ha with rfl | ha2
        · rw [hs] at hsa
          cases hsa
        · exact hmem a ha2 n hsa hp hne
    · have hg := h atom (List.mem_cons_self _ _) hs
      rcases ho : pyInt? (pyDrop atom 10) with _ | found
      · rw [ho] at hg
        cases hg
      · refine ⟨if att ≠ found then found :: ws else ws, ?_, ?_⟩
        · rw [checkAtoms]
          simp only [hs, if_true, ho, hws]
        · intro a ha n hsa hp hne
          rcases List.mem_cons.mp ha with rfl | ha2
          · have hnf : n = found := Option.some.inj (hp.symm.trans ho)
            subst hnf
            rw [if_pos (Ne.symm hne)]
            exact List.mem_cons_self _ _
          · have hin := hmem a ha2 n hsa hp hne
            split
            · exact List.mem_cons_of_mem _ hin
            · exact hin

/-! String lemmas for the job-id extraction from the report path. -/

theorem takeWhile_append_stop (p : Char → Bool) (l1 l2 : List Char) (c : Char)
    (h1 : ∀ x ∈ l1, p x = true) (hc : p c = false) :
    (l1 ++ c :: l2).takeWhile p = l1 := by
  induction l1 with
  | nil =>
    rw [List.nil_append, List.takeWhile_cons, if_neg (by simp [hc])]
  | cons a l1 ih =>
    rw [List.cons_append, List.takeWhile_cons,
      if_pos (h1 a (List.mem_cons_self _ _)),
      ih (fun x hx => h1 x (List.mem_cons_of_mem _ hx))]

theorem rpartitionSuffix_append (pre ds : String) (hds : ∀ c ∈ ds.data, c ≠ '_') :
    rpartitionSuffix (pre ++ "_" ++ ds) = ds := by
  rw [rpartitionSuffix]
  have hdata : (pre ++ "_" ++ ds).data = pre.data ++ '_' :: ds.data := by
    simp [String.data_append]
  rw [hdata, List.reverse_append, List.reverse_cons, List.append_assoc,
    List.singleton_append]
  rw [takeWhile_append_stop _ _ _ _ ?h1 (by decide)]
  · rw [List.reverse_reverse]
  case h1 =>
    intro x hx
    have := hds x (List.mem_reverse.mp hx)
    simp [this]

theorem isPySpace_eq_false_of_digit {c : Char} (h : c.isDigit = true) :
    isPySpace c = false := by
  cases hsp : isPySpace c
  · rfl
  · simp only [isPySpace, Bool.or_eq_true, beq_iff_eq] at hsp
    rcases hsp with ((((rfl | rfl) | rfl) | rfl) | rfl) | rfl <;> exact absurd h (by decide)

theorem digit_ne_minus {c : Char} (h : c.isDigit = true) : c ≠ '-' := by
  intro he
  rw [he] at h
  exact absurd h (by decide)

theorem digit_ne_plus {c : Char} (h : c.isDigit = true) : c ≠ '+' := by
  intro he
  rw [he] at h
  exact absurd h (by decide)

theorem dropWhile_eq_self_all (p : Char → Bool) (l : List Char)
    (h : ∀ x ∈ l, p x = false) : l.dropWhile p = l := by
  cases l with
  | nil => rfl
  | cons a l =>
    rw [List.dropWhile_cons, if_neg (by simp [h a (List.mem_cons_self _ _)])]

theorem stripWS_all (l : List Char) (h : ∀ x ∈ l, isPySpace x = false) :
    stripWS l = l := by
  rw [stripWS, dropWhile_eq_self_all _ _ h,
    dropWhile_eq_self_all _ _ (fun x hx => h x (List.mem_reverse.mp hx)),
    List.reverse_reverse]

theorem readSign_no_sign (c : Char) (rest : List Char) (h1 : c ≠ '-') (h2 : c ≠ '+') :
    readSign (c :: rest) = (false, c :: rest) := by
  unfold readSign
  split
  · next heq =>
    injection heq with hc hr
    exact absurd hc h1
  · next heq =>
    injection heq with hc hr
    exact absurd hc h2
  · rfl

theorem pyInt?_digits (ds : String) (hne : ds.data ≠ [])
    (hall : ds.data.all Char.isDigit = true) :
    pyInt? ds = some ((natOfDigits ds.data : Int)) := by
  obtain ⟨c, rest, hcr⟩ := List.exists_cons_of_ne_nil hne
  have hx := List.all_eq_true.mp hall
  have hstrip : stripWS ds.data = ds.data :=
    stripWS_all _ (fun x hxm => isPySpace_eq_false_of_digit (hx x hxm))
  rw [hcr] at hstrip
  have hall2 : (c :: rest).all Char.isDigit = true := by rw [← hcr]; exact hall
  have hc : c.isDigit = true := hx c (by rw [hcr]; exact List.mem_cons_self _ _)
  simp only [pyInt?, hcr, hstrip,
    readSign_no_sign c rest (digit_ne_minus hc) (digit_ne_plus hc)]
  rw [pyIntBody?, if_pos ⟨List.cons_ne_nil c rest, hall2⟩]
  simp

/-! Lemmas about parse_xml_report. -/

theorem parse_xml_report_records (tag0 : String) (report : XmlReport)
    (wid att j : Int)
    (hj : pyInt? (rpartitionSuffix (report.parts.headD "")) = some j) :
    parse_xml_report tag0 report wid att =
      some ((iterTag tag0 report.root).map (fun tc =>
        updateK (updateK (updateK (process_xml_element tc)
          "workflow_id" (Value.intV wid))
          "workflow_run_attempt" (Value.intV att))
          "job_id" (Value.intV j))) := by
  rw [parse_xml_report, hj]

theorem parse_xml_report_fails (tag0 : String) (report : XmlReport)
    (wid att : Int)
    (hj : pyInt? (rpartitionSuffix (report.parts.headD "")) = none) :
    parse_xml_report tag0 report wid att = none := by
  rw [parse_xml_report, hj]

/-! The claims. -/

/-- C1, counterexample to the claim as stated: the attribute value 7
parses as an integer, yet the record stores the float 7.0, not the
integer 7, because the coercion loop always retries float(v) after a
successful int(v) and the float result overwrites the int result. -/
theorem C1_counterexample :
    pyInt? "7" = some 7 ∧
    lookupK (process_xml_element (.mk "testcase" [("n", "7")] none none [])) "n" =
      some (Value.floatV (.finite 7)) ∧
    Value.floatV (.finite 7) ≠ Value.intV 7 :=
  ⟨rfl, rfl, fun h => Value.noConfusion h⟩

/-- C1, amended: each attribute value is coerced independently, but a
value that parses as an integer is stored as a float, because float(v)
also succeeds on it and overwrites; a value that parses as a float is
stored as that float; any other value is kept as a string. -/
theorem C1_attribute_coercion (attrib : List (String × String)) (k v : String)
    (h : lookupK (attribDict attrib) k = some v) :
    lookupK (attribRecord attrib) k = some (coerce v) ∧
    (∀ n : Int, pyInt? v = some n → coerce v = Value.floatV (.finite (n : ℚ))) ∧
    (∀ f : PyFloat, pyFloat? v = some f → coerce v = Value.floatV f) ∧
    (pyFloat? v = none → pyInt? v = none ∧ coerce v = Value.strV v) := by
  refine ⟨?_, ?_, ?_, ?_⟩
  · rw [lookupK_attribRecord, h, Option.map_some']
  · intro n hn
    exact coerce_of_pyInt? v n hn
  · intro f hf
    exact coerce_of_pyFloat? v f hf
  · intro hf
    exact coerce_of_none v hf

/-- C1 witness: the amended theorem applied to a concrete element. -/
theorem C1_attribute_coercion_witness :
    lookupK (attribRecord [("n", "7")]) "n" = some (coerce "7") ∧
    coerce "7" = Value.floatV (.finite 7) := by
  refine ⟨(C1_attribute_coercion [("n", "7")] "n" "7" rfl).1, ?_⟩
  have h := (C1_attribute_coercion [("n", "7")] "n" "7" rfl).2.1 7 rfl
  simpa using h

/-- C2, counterexample to the claim as stated: in the record parsed for
the testsuite tag, the tests attribute is stored as the float 3.0, not
as the integer 3 the claim describes. -/
theorem C2_counterexample :
    (parse_xml_report "testsuite"
        ⟨["unzipped-test-reports-foo_5596745227", "test.xml"],
         .mk "testsuite" [("name", "Foo"), ("tests", "3")] none none
           [.mk "testcase" [("name", "bar"), ("time", "0.5")] none none []]⟩
        10 2).map (List.map (fun r => lookupK r "tests")) =
      some [some (Value.floatV (.finite 3))] ∧
    Value.floatV (.finite 3) ≠ Value.intV 3 :=
  ⟨rfl, fun h => Value.noConfusion h⟩

/-- C2, amended: the end-to-end scenario yields exactly the claimed
records, except that the tests attribute becomes the float 3.0 rather
than the integer 3; the testcase record is exactly as claimed, with
time parsed to the rational one half. -/
theorem C2_end_to_end (wid att : Int) :
    parse_xml_report "testcase"
        ⟨["unzipped-test-reports-foo_5596745227", "test.xml"],
         .mk "testsuite" [("name", "Foo"), ("tests", "3")] none none
           [.mk "testcase" [("name", "bar"), ("time", "0.5")] none none []]⟩
        wid att =
      some [[("name", Value.strV "bar"),
        ("time", Value.floatV (.finite ((5 : ℚ) / 10 ^ 1))),
        ("workflow_id", Value.intV wid), ("workflow_run_attempt", Value.intV att),
        ("job_id", Value.intV 5596745227)]] ∧
    parse_xml_report "testsuite"
        ⟨["unzipped-test-reports-foo_5596745227", "test.xml"],
         .mk "testsuite" [("name", "Foo"), ("tests", "3")] none none
           [.mk "testcase" [("name", "bar"), ("time", "0.5")] none none []]⟩
        wid att =
      some [[("name", Value.strV "Foo"), ("tests", Value.floatV (.finite 3)),
        ("testcase", Value.dictV [("name", Value.strV "bar"),
          ("time", Value.floatV (.finite ((5 : ℚ) / 10 ^ 1)))]),
        ("workflow_id", Value.intV wid), ("workflow_run_attempt", Value.intV att),
        ("job_id", Value.intV 5596745227)]] ∧
    ((5 : ℚ) / 10 ^ 1) = 1 / 2 :=
  ⟨rfl, rfl, by norm_num⟩

/-- C3, counterexample to the claim as stated: a first path segment
with no underscore at all, hence no trailing underscore-integer, still
parses successfully because Python rpartition returns the whole string
and the segment itself is numeric. -/
theorem C3_counterexample :
    "123".data.all (fun c => c != '_') = true ∧
    (parse_xml_report "testcase" ⟨["123", "x.xml"], .mk "t" [] none none []⟩
      1 1).isSome = true :=
  ⟨rfl, rfl⟩

/-- C3, amended: parse_xml_report fails with the value-conversion error
exactly when the text after the last underscore of the first path
segment, or the whole segment when it has no underscore, does not parse
as an integer; in particular a first segment that does end in an
underscore followed by digits always succeeds, with that digit suffix
as the job id. -/
theorem C3_job_id_parse (tag0 first : String) (rest : List String) (root : Element)
    (wid att : Int) :
    (parse_xml_report tag0 ⟨first :: rest, root⟩ wid att = none ↔
      pyInt? (rpartitionSuffix first) = none) ∧
    (∀ pre ds : String, first = pre ++ "_" ++ ds → ds.data ≠ [] →
      ds.data.all Char.isDigit = true → (∀ c ∈ ds.data, c ≠ '_') →
      parse_xml_report tag0 ⟨first :: rest, root⟩ wid att =
        some ((iterTag tag0 root).map (fun tc =>
          updateK (updateK (updateK (process_xml_element tc)
            "workflow_id" (Value.intV wid))
            "workflow_run_attempt" (Value.intV att))
            "job_id" (Value.intV (natOfDigits ds.data))))) := by
  constructor
  · cases hj : pyInt? (rpartitionSuffix first)
    · simp [parse_xml_report_fails tag0 ⟨first :: rest, root⟩ wid att hj, hj]
    · simp [parse_xml_report_records tag0 ⟨first :: rest, root⟩ wid att _ hj, hj]
  · intro pre ds hf hne hall hus
    subst hf
    have hsuffix : rpartitionSuffix (pre ++ "_" ++ ds) = ds :=
      rpartitionSuffix_append pre ds hus
    refine parse_xml_report_records tag0 _ wid att _ ?_
    show pyInt? (rpartitionSuffix (pre ++ "_" ++ ds)) = _
    rw [hsuffix]
    exact pyInt?_digits ds hne hall

/-- C3 witness: the amended theorem applied to a concrete report path
ending in an underscore and digits. -/
theorem C3_job_id_parse_witness :
    parse_xml_report "t" ⟨["foo_42"], .mk "t" [] none none []⟩ 1 1 =
      some [[("workflow_id", Value.intV 1), ("workflow_run_attempt", Value.intV 1),
        ("job_id", Value.intV 42)]] := by
  have h := (C3_job_id_parse "t" "foo_42" [] (.mk "t" [] none none []) 1 1).2
    "foo" "42" rfl (by decide) (by decide) (by decide)
  exact h.trans (by rfl)

theorem s3_reports_eval (objs : List String) :
    download_and_extract_s3_reports objs =
      if objs.isEmpty then .error "RuntimeError: no test reports found in s3"
      else .ok objs := by
  simp only [download_and_extract_s3_reports, s3_foldl objs false [], Bool.false_or,
    List.nil_append]
  cases objs <;> simp

/-- C4: download_and_extract_s3_reports raises exactly when the listing
returns zero objects; with at least one object it downloads and
extracts every listed object and raises nothing. -/
theorem C4_s3_zero_objects (objs : List String) :
    ((∃ msg, download_and_extract_s3_reports objs = .error msg) ↔ objs = []) ∧
    (objs ≠ [] → download_and_extract_s3_reports objs = .ok objs) := by
  constructor
  · constructor
    · rintro ⟨msg, hmsg⟩
      cases hobj : objs.isEmpty
      · rw [s3_reports_eval, hobj] at hmsg
        simp at hmsg
      · exact List.isEmpty_iff.mp hobj
    · rintro rfl
      exact ⟨_, by rw [s3_reports_eval]; rfl⟩
  · intro hne
    have hobj : objs.isEmpty = false := by
      cases objs
      · exact absurd rfl hne
      · rfl
    rw [s3_reports_eval, hobj]
    simp

theorem lookupK_addChildren_none (cs : List Element) (t : String) (d : Dict)
    (h : lastWithTag t cs = none) : lookupK (addChildren cs d) t = lookupK d t := by
  rw [lookupK_addChildren, h]

theorem lookupK_addChildren_last (cs : List Element) (t : String) (d : Dict) (c : Element)
    (h : lastWithTag t cs = some c) :
    lookupK (addChildren cs d) t = some (Value.dictV (process_xml_element c)) := by
  rw [lookupK_addChildren, h]

/-- C4 witness: the theorem applied to a one-object listing. -/
theorem C4_s3_zero_objects_witness :
    download_and_extract_s3_reports ["a"] = .ok ["a"] :=
  (C4_s3_zero_objects ["a"]).2 (by decide)

/-- C5, counterexample to the claim as stated: this artifact name
contains the token runattempt2 whose attempt 2 differs from the
requested attempt 1, yet the function raises on the later malformed
token runattemptx before ever downloading, so the artifact is not
downloaded and extracted. -/
theorem C5_counterexample :
    "runattempt2" ∈ pySplit '-' "runattempt2-runattemptx" ∧
    pyStartsWith "runattempt2" "runattempt" = true ∧
    pyInt? (pyDrop "runattempt2" 10) = some 2 ∧ (2 : Int) ≠ 1 ∧
    download_and_extract_artifact "runattempt2-runattemptx" 1 = .error "ValueError" :=
  ⟨by decide, by decide, rfl, by decide, rfl⟩

/-- C5, amended: when every runattempt-prefixed token of the name has
an integer suffix, a token whose attempt differs from the requested one
only produces a logged warning, and the artifact is still downloaded
and extracted; the mismatch branch never prevents the download. -/
theorem C5_mismatch_no_skip (name : String) (att : Int)
    (hparse : ∀ atom ∈ pySplit '-' name, pyStartsWith atom "runattempt" = true →
      (pyInt? (pyDrop atom 10)).isSome = true)
    (hmis : ∃ atom ∈ pySplit '-' name, pyStartsWith atom "runattempt" = true ∧
      ∃ n : Int, pyInt? (pyDrop atom 10) = some n ∧ n ≠ att) :
    ∃ a : ArtifactAction, download_and_extract_artifact name att = .ok a ∧
      a.downloaded = true ∧ a.extracted = true ∧ a.warnings ≠ [] := by
  obtain ⟨ws, hws, hmem⟩ := checkAtoms_ok att (pySplit '-' name) hparse
  refine ⟨⟨ws, true, true⟩, ?_, rfl, rfl, ?_⟩
  · rw [download_and_extract_artifact, hws]
  · obtain ⟨atom, hatom, hs, n, hp, hne⟩ := hmis
    exact List.ne_nil_of_mem (hmem atom hatom n hs hp hne)

/-- C5 witness: the amended theorem applied to a concrete mismatched
artifact name. -/
theorem C5_mismatch_no_skip_witness :
    ∃ a : ArtifactAction,
      download_and_extract_artifact "test-report-runattempt2-abc" 1 = .ok a ∧
      a.downloaded = true ∧ a.extracted = true ∧ a.warnings ≠ [] :=
  C5_mismatch_no_skip "test-report-runattempt2-abc" 1 (by decide)
    ⟨"runattempt2", by decide, by decide, 2, rfl, by decide⟩

/-- C6, counterexample to the claim as stated: an element whose inner
text is absent, hence blank, still gets a text field in its record,
because an attribute named text produces that field. -/
theorem C6_counterexample :
    (Element.mk "t" [("text", "x")] none none []).text = none ∧
    lookupK (process_xml_element (.mk "t" [("text", "x")] none none [])) "text" =
      some (Value.strV "x") :=
  ⟨rfl, rfl⟩

/-- C6, amended: for an element none of whose attributes or child tags
are named text or tail, the record has a text field exactly when the
inner text is non-blank and a tail field exactly when the trailing text
is non-blank. -/
theorem C6_text_tail_presence (tg : String) (attrib : List (String × String))
    (tx tl : Option String) (cs : List Element)
    (hat : ∀ p ∈ attrib, p.1 ≠ "text") (hal : ∀ p ∈ attrib, p.1 ≠ "tail")
    (hct : ∀ c ∈ cs, c.tag ≠ "text") (hcl : ∀ c ∈ cs, c.tag ≠ "tail") :
    ((lookupK (process_xml_element (.mk tg attrib tx tl cs)) "text").isSome = true ↔
      isBlankO tx = false) ∧
    ((lookupK (process_xml_element (.mk tg attrib tx tl cs)) "tail").isSome = true ↔
      isBlankO tl = false) := by
  rw [process_xml_element_def]
  have hbase_t : lookupK (attribRecord attrib) "text" = none := by
    rw [lookupK_attribRecord, lookupK_attribDict_none attrib _ hat]
    rfl
  have hbase_l : lookupK (attribRecord attrib) "tail" = none := by
    rw [lookupK_attribRecord, lookupK_attribDict_none attrib _ hal]
    rfl
  constructor
  · rw [lookupK_addChildren_none cs _ _ (lastWithTag_eq_none _ _ hct),
      lookupK_addTail_ne _ _ _ (by decide)]
    match tx with
    | none =>
      rw [addText_none, hbase_t]
      simp [isBlankO]
    | some t =>
      cases hb : t.data.all isPySpace
      · rw [addText_nonblank t _ hb, lookupK_updateK_self]
        simp [isBlankO, hb]
      · rw [addText_blank t _ hb, hbase_t]
        simp [isBlankO, hb]
  · rw [lookupK_addChildren_none cs _ _ (lastWithTag_eq_none _ _ hcl)]
    match tl with
    | none =>
      rw [addTail_none, lookupK_addText_ne _ _ _ (by decide), hbase_l]
      simp [isBlankO]
    | some t =>
      cases hb : t.data.all isPySpace
      · rw [addTail_nonblank t _ hb, lookupK_updateK_self]
        simp [isBlankO, hb]
      · rw [addTail_blank t _ hb, lookupK_addText_ne _ _ _ (by decide), hbase_l]
        simp [isBlankO, hb]

/-- C6 witness: the amended theorem applied to an element with
non-blank text and whitespace-only tail. -/
theorem C6_text_tail_presence_witness :
    ((lookupK (process_xml_element (.mk "t" [("a", "1")] (some "hi") (some " ") []))
        "text").isSome = true ↔ isBlankO (some "hi") = false) ∧
    ((lookupK (process_xml_element (.mk "t" [("a", "1")] (some "hi") (some " ") []))
        "tail").isSome = true ↔ isBlankO (some " ") = false) :=
  C6_text_tail_presence "t" [("a", "1")] (some "hi") (some " ") []
    (by decide) (by decide) (by decide) (by decide)

/-- C7: the record of an element has pairwise distinct field names, one
per distinct child tag among others, and the field named after a
repeated child tag holds the record of the last sibling with that tag. -/
theorem C7_children_last_wins (e : Element) :
    (keysK (process_xml_element e)).Nodup ∧
    ∀ t c, lastWithTag t e.children = some c →
      lookupK (process_xml_element e) t = some (Value.dictV (process_xml_element c)) := by
  refine ⟨nodup_keysK_process e, ?_⟩
  intro t c hl
  cases e with
  | mk tg attrib tx tl cs =>
    simp only [Element.children] at hl
    rw [process_xml_element_def]
    exact lookupK_addChildren_last cs t _ c hl

/-- C7 witness: with two sibling children both tagged x, the x field
holds the record of the second one. -/
theorem C7_children_last_wins_witness :
    lookupK (process_xml_element (.mk "suite" [] none none
      [.mk "x" [("i", "a")] none none [], .mk "x" [("i", "b")] none none []])) "x" =
      some (Value.dictV [("i", Value.strV "b")]) := by
  have h := (C7_children_last_wins (.mk "suite" [] none none
    [.mk "x" [("i", "a")] none none [], .mk "x" [("i", "b")] none none []])).2
    "x" (.mk "x" [("i", "b")] none none []) rfl
  exact h.trans (by rfl)

/-- C8: every record parse_xml_report returns carries the injected
workflow_id, workflow_run_attempt, and job_id values, overwriting any
field of the same name that came from the XML itself. -/
theorem C8_injected_fields (tag0 : String) (report : XmlReport) (wid att : Int)
    (l : List Dict) (h : parse_xml_report tag0 report wid att = some l) :
    ∀ r ∈ l, lookupK r "workflow_id" = some (Value.intV wid) ∧
      lookupK r "workflow_run_attempt" = some (Value.intV att) ∧
      ∃ j : Int, pyInt? (rpartitionSuffix (report.parts.headD "")) = some j ∧
        lookupK r "job_id" = some (Value.intV j) := by
  intro r hr
  cases hj : pyInt? (rpartitionSuffix (report.parts.headD "")) with
  | none =>
    rw [parse_xml_report_fails tag0 report wid att hj] at h
    cases h
  | some j =>
    rw [parse_xml_report_records tag0 report wid att j hj] at h
    have hl := Option.some.inj h
    rw [← hl] at hr
    obtain ⟨tc, htc, rfl⟩ := List.mem_map.mp hr
    refine ⟨?_, ?_, j, rfl, ?_⟩
    · rw [lookupK_updateK_ne _ _ _ _ (by decide), lookupK_updateK_ne _ _ _ _ (by decide),
        lookupK_updateK_self]
    · rw [lookupK_updateK_ne _ _ _ _ (by decide), lookupK_updateK_self]
    · rw [lookupK_updateK_self]

/-- C8 witness: the theorem applied to an element whose own
workflow_id attribute is overwritten by the injected value. -/
theorem C8_injected_fields_witness :
    lookupK [("workflow_id", Value.intV 10), ("workflow_run_attempt", Value.intV 2),
      ("job_id", Value.intV 5)] "workflow_id" = some (Value.intV 10) ∧
    lookupK [("workflow_id", Value.intV 10), ("workflow_run_attempt", Value.intV 2),
      ("job_id", Value.intV 5)] "workflow_run_attempt" = some (Value.intV 2) ∧
    ∃ j : Int, pyInt? (rpartitionSuffix "a_5") = some j ∧
      lookupK [("workflow_id", Value.intV 10), ("workflow_run_attempt", Value.intV 2),
        ("job_id", Value.intV 5)] "job_id" = some (Value.intV j) :=
  C8_injected_fields "t" ⟨["a_5", "x.xml"], .mk "t" [("workflow_id", "999")] none none []⟩
    10 2
    [[("workflow_id", Value.intV 10), ("workflow_run_attempt", Value.intV 2),
      ("job_id", Value.intV 5)]]
    (by rfl) _ (List.mem_singleton.mpr rfl)

/-- C9: a child element whose tag collides with an attribute name or
with the text or tail key wins the collision: the field ends up holding
the child record, because child fields are assigned last. -/
theorem C9_child_overwrites (tg : String) (attrib : List (String × String))
    (tx tl : Option String) (cs : List Element) (t : String) (c : Element)
    (_hcol : t ∈ keysK attrib ∨ t = "text" ∨ t = "tail")
    (hlast : lastWithTag t cs = some c) :
    lookupK (process_xml_element (.mk tg attrib tx tl cs)) t =
      some (Value.dictV (process_xml_element c)) := by
  rw [process_xml_element_def]
  exact lookupK_addChildren_last cs t _ c hlast

/-- C9 witness: a child tagged text overwrites the field created from
the non-blank inner text. -/
theorem C9_child_overwrites_witness :
    lookupK (process_xml_element (.mk "t" [] (some "hello") none
      [.mk "text" [] none none []])) "text" = some (Value.dictV []) := by
  have h := C9_child_overwrites "t" [] (some "hello") none
    [.mk "text" [] none none []] "text" (.mk "text" [] none none [])
    (Or.inr (Or.inl rfl)) rfl
  exact h.trans (by rfl)

/-- C10: the stored text and tail values are the original strings,
whitespace included; stripping only decides whether the field exists. -/
theorem C10_text_verbatim (d : Dict) (t : String) :
    (addText none d = d ∧ addTail none d = d) ∧
    (t.data.all isPySpace = true → addText (some t) d = d ∧ addTail (some t) d = d) ∧
    (t.data.all isPySpace = false →
      lookupK (addText (some t) d) "text" = some (Value.strV t) ∧
      lookupK (addTail (some t) d) "tail" = some (Value.strV t)) ∧
    (∀ tg attrib tl cs, (∀ c ∈ cs, Element.tag c ≠ "text") →
      t.data.all isPySpace = false →
      lookupK (process_xml_element (.mk tg attrib (some t) tl cs)) "text" =
        some (Value.strV t)) ∧
    (∀ tg attrib tx cs, (∀ c ∈ cs, Element.tag c ≠ "tail") →
      t.data.all isPySpace = false →
      lookupK (process_xml_element (.mk tg attrib tx (some t) cs)) "tail" =
        some (Value.strV t)) := by
  refine ⟨⟨rfl, rfl⟩, ?_, ?_, ?_, ?_⟩
  · intro hb
    exact ⟨addText_blank t d hb, addTail_blank t d hb⟩
  · intro hb
    rw [addText_nonblank t d hb, addTail_nonblank t d hb]
    exact ⟨lookupK_updateK_self _ _ _, lookupK_updateK_self _ _ _⟩
  · intro tg attrib tl cs hct hb
    rw [process_xml_element_def,
      lookupK_addChildren_none cs _ _ (lastWithTag_eq_none _ _ hct),
      lookupK_addTail_ne _ _ _ (by decide), addText_nonblank t _ hb,
      lookupK_updateK_self]
  · intro tg attrib tx cs hcl hb
    rw [process_xml_element_def,
      lookupK_addChildren_none cs _ _ (lastWithTag_eq_none _ _ hcl),
      addTail_nonblank t _ hb, lookupK_updateK_self]

/-- C10 witness: a padded string is stored verbatim, surrounding
whitespace included. -/
theorem C10_text_verbatim_witness :
    lookupK (addText (some "  padded  ") []) "text" =
      some (Value.strV "  padded  ") ∧
    lookupK (process_xml_element (.mk "t" [] (some "  padded  ") none []))
      "text" = some (Value.strV "  padded  ") :=
  ⟨((C10_text_verbatim [] "  padded  ").2.2.1 (by decide)).1,
   (C10_text_verbatim [] "  padded  ").2.2.2.1 "t" [] none [] (by decide) (by decide)⟩
